import Mathlib

/-!
Shallow embedding of `src/mcp-chat.ts` (the `mcp-chat` package): the chat
extension layer for an MCP server.  Pure functions of the source become Lean
functions; the effectful request handlers become pure functions of the values
their awaited collaborators return (the accessor contract, the registered
fallback handler); the notification dispatcher becomes a function returning
the ordered trace of notifications it emits.
-/

namespace McpChat

/-- Data model of `Resource` (from the MCP SDK types, as used by the source):
an addressable chat thread with a `uri`, `name` and `description`. -/
structure Resource where
  uri : String
  name : String
  description : String
deriving Repr, DecidableEq

/-- Author field of a chat message (`author: \x7bname, id\x7d`). -/
structure Author where
  name : String
  id : String
deriving Repr, DecidableEq

/-- Data model of `ChatNotificationMessage` from the source. -/
structure ChatNotificationMessage where
  id : String
  uri : String
  author : Author
  content : String
  timestamp : String
deriving Repr, DecidableEq

/-- Data model of `ResourceTemplate` as used by the source
(`uriTemplate`, `name`, `description`). -/
structure ResourceTemplate where
  uriTemplate : String
  name : String
  description : String
deriving Repr, DecidableEq

/-- Result record of `parseChatProtocolUrl`: the two capture groups. -/
structure ParsedChatUrl where
  protocol : String
  pathname : String
deriving Repr, DecidableEq

/-- JavaScript line terminators, which `.` in a regex without the `s` flag
does not match: LF, CR, LINE SEPARATOR (U+2028), PARAGRAPH SEPARATOR
(U+2029). -/
def isLineTerminator (c : Char) : Bool :=
  c = '\n' || c = '\r' || c = Char.ofNat 0x2028 || c = Char.ofNat 0x2029

/-- Core of `parseChatProtocolUrl` on character lists, embedding the match
`url.match(/^(chat\+[^\:]+):\/\/\/(.*)/)`:

* `^` anchors at the start of the string (no `m` flag);
* `chat\+` is the literal prefix;
* `[^\:]+` greedily matches one or more non-colon characters (including
  line terminators); since a colon can occur neither inside the run nor be
  produced by backtracking, the captured run is exactly the maximal
  colon-free run, and the character after it must be the `:` of `:///`;
* `:\/\/\/` is the literal `":///"`;
* `(.*)` greedily matches zero or more characters that are not line
  terminators (JavaScript `.`), and the overall match need not reach the
  end of the string.

Returns the pair of capture groups (group 1 includes the `chat+` marker). -/
def parseChatList (cs : List Char) : Option (List Char × List Char) :=
  let rest := cs.drop 5
  let p := rest.takeWhile (fun c => c ≠ ':')
  let after := rest.drop p.length
  if cs.take 5 = ['c', 'h', 'a', 't', '+'] then
    if p ≠ [] ∧ after.take 4 = [':', '/', '/', '/'] then
      some (['c', 'h', 'a', 't', '+'] ++ p,
            (after.drop 4).takeWhile (fun c => ¬ isLineTerminator c))
    else
      none
  else
    none

/-- Embedding of `parseChatProtocolUrl(url)` from the source: on a regex
match, returns the record of the two capture groups (`protocol` is group 1,
comment in the source: `chat+discord`; `pathname` is group 2); on no match,
returns `null`, embedded as `none`. -/
def parseChatProtocolUrl (url : String) : Option ParsedChatUrl :=
  (parseChatList url.data).map fun pr => { protocol := ⟨pr.1⟩, pathname := ⟨pr.2⟩ }

example : parseChatProtocolUrl "chat+discord:///1234/5678" =
    some { protocol := "chat+discord", pathname := "1234/5678" } := by decide

example : parseChatProtocolUrl "bad" = none := by decide

example : parseChatProtocolUrl "chat+:///x" = none := by decide

example : parseChatProtocolUrl "http://x" = none := by decide

example : parseChatProtocolUrl "chat+a://x" = none := by decide

example : parseChatProtocolUrl "chat+a:///" =
    some { protocol := "chat+a", pathname := "" } := by decide

example : parseChatProtocolUrl "chat+a:///x\ny" =
    some { protocol := "chat+a", pathname := "x" } := by decide

/-- Insertion loop of a JavaScript `Set`: an element already seen is skipped,
a new element is appended and recorded. -/
def jsSetDedupAux {α : Type} [DecidableEq α] (seen : List α) : List α → List α
  | [] => []
  | x :: xs =>
    if x ∈ seen then jsSetDedupAux seen xs
    else x :: jsSetDedupAux (x :: seen) xs

/-- Deduplication with JavaScript `Set` semantics, as produced by
`Array.from(new Set(allProtocols))`: keeps the first occurrence of each
element, in insertion order. -/
def jsSetDedup {α : Type} [DecidableEq α] (l : List α) : List α :=
  jsSetDedupAux [] l

/-- The `resources.map(...)` body of `getProtocols`: parse each resource URI
in order; a resource whose URI fails to parse throws
`new Error("Failed to parse resource URI: " + resource.uri)`, aborting the
whole map at the first offender (JavaScript `Array.prototype.map` applies
the callback sequentially and the throw propagates). -/
def mapProtocols : List Resource → Except String (List String)
  | [] => Except.ok []
  | r :: rs =>
    match parseChatProtocolUrl r.uri with
    | some parsed => (mapProtocols rs).map fun ps => parsed.protocol :: ps
    | none => Except.error ("Failed to parse resource URI: " ++ r.uri)

/-- Embedding of `MCPMessageBus.getProtocols`: fetch the resource list from
the accessor contract (an absent result is treated as `[]` by `?? []`),
parse every URI fail-fast via `mapProtocols`, then deduplicate with `Set`
semantics.  The awaited accessor result is passed in as a value; an
accessor throw would propagate unmodified and is outside this function. -/
def getProtocols (resources : Option (List Resource)) : Except String (List String) :=
  match mapProtocols (resources.getD []) with
  | Except.ok allProtocols => Except.ok (jsSetDedup allProtocols)
  | Except.error e => Except.error e

example : getProtocols (some [⟨"chat+a:///x", "", ""⟩, ⟨"bad", "", ""⟩]) =
    Except.error "Failed to parse resource URI: bad" := rfl

example : getProtocols (some [⟨"chat+a:///x", "", ""⟩, ⟨"chat+b:///y", "", ""⟩,
    ⟨"chat+a:///z", "", ""⟩]) = Except.ok ["chat+a", "chat+b"] := rfl

/-- One property entry of a synthesized tool's `inputSchema.properties`
object: its key, `type` and `description`. -/
structure SchemaProp where
  name : String
  type : String
  description : String
deriving Repr, DecidableEq

/-- The `inputSchema` object of a tool descriptor. -/
structure InputSchema where
  type : String
  properties : List SchemaProp
  required : List String
deriving Repr, DecidableEq

/-- A tool descriptor as returned by the list-tools handler. -/
structure Tool where
  name : String
  description : String
  inputSchema : InputSchema
deriving Repr, DecidableEq

/-- The tool descriptor pushed for one protocol inside the list-tools
handler's `for (const protocol of protocols)` loop, with the template
interpolated exactly as in the source's template literals. -/
def synthesizeTool (tmpl : ResourceTemplate) (protocol : String) : Tool :=
  { name := protocol
    description :=
      "Send a message on the " ++ tmpl.name ++ " protocol using the resource URI"
    inputSchema :=
      { type := "object"
        properties :=
          [{ name := "uri", type := "string"
             description := "Resource URI in the format " ++ tmpl.uriTemplate ++
               " -- " ++ tmpl.description }
           , { name := "message", type := "string"
               description := "Message content to send" }]
        required := ["uri", "message"] } }

/-- Embedding of the `ListToolsRequestSchema` handler installed by `attach`:
`fallbackTools` is the `tools` field of the captured fallback handler's
response when `this.requestHandlers` holds one for this request kind
(`originalToolsResponse`), and `none` stands for no captured handler, in
which case `\x7b tools: [] \x7d` is used.  The handler then discovers the
protocols (a discovery throw propagates as the request's error) and returns
the fallback tools followed by one synthesized tool per protocol. -/
def listToolsHandler (resources : Option (List Resource)) (tmpl : ResourceTemplate)
    (fallbackTools : Option (List Tool)) : Except String (List Tool) :=
  let originalTools := fallbackTools.getD []
  match getProtocols resources with
  | Except.error e => Except.error e
  | Except.ok protocols => Except.ok (originalTools ++ protocols.map (synthesizeTool tmpl))

/-- Arguments of a call-tool request as seen by
`SendChatMessageSchema.parse(args)` (a zod object of two required strings):
either a value of the valid shape, carrying the `uri` and `message` strings,
or anything else, on which `parse` throws a validation error. -/
inductive ToolArgs where
  | valid (uri : String) (message : String)
  | invalid
deriving Repr, DecidableEq

/-- Embedding of `SendChatMessageSchema.parse(args)`: the zod shape check,
succeeding exactly on the valid shape and throwing otherwise. -/
def sendChatMessageParse : ToolArgs → Except String (String × String)
  | ToolArgs.valid uri message => Except.ok (uri, message)
  | ToolArgs.invalid => Except.error "InvalidToolArguments"

/-- One item of a call-tool response's `content` array: its `type` tag and
its `text` field, which the source sets to the possibly-undefined result of
`writeMessage`. -/
structure ToolContent where
  type : String
  text : Option String
deriving Repr, DecidableEq

/-- A call-tool response: its `content` array. -/
structure CallToolResult where
  content : List ToolContent
deriving Repr, DecidableEq

/-- The `request.params` of a call-tool request: the tool `name` and the
`arguments` value. -/
structure CallToolRequest where
  name : String
  args : ToolArgs
deriving Repr, DecidableEq

/-- Embedding of the `CallToolRequestSchema` handler installed by `attach`.
`writeMessage` is the accessor contract's write function (its awaited
results passed as values); `fallback` is the handler captured in
`this.requestHandlers` for this request kind, if any, as a function of the
request.  The second component of the result is the ordered trace of
`(uri, message)` invocations of `writeMessage` made by the handler, so that
call multiplicity is part of the embedded behaviour.  Control flow follows
the source: discover protocols (a throw propagates); if the tool name is a
discovered protocol, parse the arguments (a validation throw propagates),
call `writeMessage(uri, message)` once and wrap its result as the sole
content item; otherwise delegate to the fallback when present, and return
an empty content list when absent. -/
def callToolHandler (resources : Option (List Resource))
    (writeMessage : String → String → Option String)
    (fallback : Option (CallToolRequest → CallToolResult))
    (request : CallToolRequest) :
    Except String (CallToolResult × List (String × String)) :=
  match getProtocols resources with
  | Except.error e => Except.error e
  | Except.ok protocols =>
    if request.name ∈ protocols then
      match sendChatMessageParse request.args with
      | Except.error e => Except.error e
      | Except.ok (uri, message) =>
        let summaryText := writeMessage uri message
        Except.ok ({ content := [{ type := "text", text := summaryText }] },
                   [(uri, message)])
    else
      match fallback with
      | some h => Except.ok (h request, [])
      | none => Except.ok ({ content := [] }, [])

/-- One item of a read-resource response's `contents` array.  The local
branch always produces `jsonMessages uri messages`, standing for the source
object with `mimeType: "application/json"` and
`text: JSON.stringify(\x7buri, messages\x7d, null, 2)` — the serialized
object is kept structural in the embedding.  `other` stands for any item a
captured fallback handler may produce. -/
inductive ResourceContent where
  | jsonMessages (uri : String) (messages : List ChatNotificationMessage)
  | other (data : String)
deriving Repr, DecidableEq

/-- A read-resource response: its `contents` array. -/
structure ReadResourceResult where
  contents : List ResourceContent
deriving Repr, DecidableEq

/-- Embedding of the `ReadResourceRequestSchema` handler installed by
`attach`.  `readMessages` is the accessor contract's read function (awaited
results as values) and `fallback` the handler captured for this request
kind, if any.  Per the source: when `readMessages(uri)` is defined (a
JavaScript array is truthy, even when empty) the response is the single
JSON content item; when it is undefined, the captured fallback handles the
request, and with no fallback the `contents` array is empty. -/
def readResourceHandler
    (readMessages : String → Option (List ChatNotificationMessage))
    (fallback : Option (String → ReadResourceResult))
    (uri : String) : ReadResourceResult :=
  match readMessages uri with
  | some messages => { contents := [ResourceContent.jsonMessages uri messages] }
  | none =>
    match fallback with
    | some h => h uri
    | none => { contents := [] }

/-- The body of the custom notification sent by `updateResource`: its
`method` string and the `params.content` payload (`null` embedded as
`none`). -/
structure NotificationMsg where
  method : String
  content : Option ChatNotificationMessage
deriving Repr, DecidableEq

/-- A notification sent to the server transport: either the SDK-native
`sendResourceUpdated(\x7buri\x7d)` event or a custom `notification(msg)`
envelope. -/
inductive SentNotification where
  | resourceUpdated (uri : String)
  | custom (msg : NotificationMsg)
deriving Repr, DecidableEq

/-- Embedding of `MCPMessageBus.updateResource(uri, id)` as the ordered
trace of notifications the call emits.  Following the source as written:
the first block, `(async () => \x7b ... sendResourceUpdated ... \x7d);`, is
an expression statement that constructs an async arrow function but never
invokes it (it lacks a trailing `()`, unlike the second block which ends
`\x7d)();`), so no `resourceUpdated` notification is ever emitted.  The
second block runs: it reads the thread's messages, looks up the first entry
whose `id` matches (`messages?.find(...) ?? null`), and sends the custom
content-updated envelope with the found message or `null`. -/
def updateResource
    (readMessages : String → Option (List ChatNotificationMessage))
    (uri : String) (id : String) : List SentNotification :=
  let messages := readMessages uri
  let message := (messages.getD []).find? fun m => m.id = id
  [SentNotification.custom
    { method := "notifications/resources/content_updated", content := message }]

/-- JavaScript `Map.prototype.set` on an association list in insertion
order: when the key is present its value is replaced in place, otherwise
the new entry is appended.  A `Map` never holds two entries with the same
key, so replacing the first matching entry is exact. -/
def mapSet {H : Type} : List (String × H) → String → H → List (String × H)
  | [], k, v => [(k, v)]
  | (k', v') :: rest, k, v =>
    if k' = k then (k, v) :: rest else (k', v') :: mapSet rest k v

/-- JavaScript `Map.prototype.get` on an association list. -/
def mapGet {H : Type} (m : List (String × H)) (k : String) : Option H :=
  (m.find? fun p => p.1 = k).map Prod.snd

/-- State of an attached host, for the registration mechanism.  `H` is the
type of handler functions (opaque for this model).  `liveHandlers` are the
handlers registered against the live transport by the host's original
`setRequestHandler`; `requestHandlers` is the chat layer's
`MCPMessageBus.requestHandlers` map, keyed by the request-kind fingerprint
`printZodSchema(requestSchema)` (an opaque string here). -/
structure HostState (H : Type) where
  liveHandlers : List (String × H)
  requestHandlers : List (String × H)
deriving Repr, DecidableEq

/-- Embedding of one call of the overridden `server.setRequestHandler`
installed at the end of `attach`: the source replaces the method with
`(requestSchema, handler) => \x7b this.requestHandlers.set(
printZodSchema(requestSchema), handler) \x7d`, so a post-attach
registration writes to the chat layer's map and never touches the live
transport's handlers. -/
def setRequestHandlerAfterAttach {H : Type} (st : HostState H) (key : String)
    (h : H) : HostState H :=
  { st with requestHandlers := mapSet st.requestHandlers key h }

/-- A sequence of post-attach registrations, applied in order. -/
def runRegistrations {H : Type} (st : HostState H) : List (String × H) → HostState H
  | [] => st
  | (k, h) :: rest => runRegistrations (setRequestHandlerAfterAttach st k h) rest

/-- Keys of an association list, used to state the at-most-one-handler
invariant. -/
def mapKeys {H : Type} (m : List (String × H)) : List String :=
  m.map Prod.fst

/-- A sample chat message used by concrete evaluations. -/
def sampleMessage : ChatNotificationMessage :=
  { id := "m1", uri := "chat+discord:///1/2", author := { name := "alice", id := "a1" }
    content := "hi", timestamp := "2025-01-01T00:00:00Z" }

/-! ### Helper lemmas -/

theorem drop_length_takeWhile (p : Char → Bool) (l : List Char) :
    l.drop (l.takeWhile p).length = l.dropWhile p := by
  induction l with
  | nil => rfl
  | cons x xs ih =>
    by_cases h : p x <;>
      simp [List.takeWhile_cons, List.dropWhile_cons, h, ih]

theorem takeWhile_ne_colon_append (p l : List Char) (hp : ∀ c ∈ p, c ≠ ':') :
    (p ++ ':' :: l).takeWhile (fun c => c ≠ ':') = p := by
  induction p with
  | nil => simp [List.takeWhile_cons]
  | cons x xs ih =>
    have hx : x ≠ ':' := hp x (by simp)
    have ih' := ih fun c hc => hp c (by simp [hc])
    simp only [List.cons_append, List.takeWhile_cons] at ih' ⊢
    simp only [ne_eq, decide_not] at ih' ⊢
    simp [hx, ih']

theorem mem_jsSetDedupAux {α : Type} [DecidableEq α] (l : List α) :
    ∀ (seen : List α) (a : α), a ∈ jsSetDedupAux seen l ↔ a ∈ l ∧ a ∉ seen := by
  induction l with
  | nil => intro seen a; simp [jsSetDedupAux]
  | cons x xs ih =>
    intro seen a
    by_cases hx : x ∈ seen
    · rw [jsSetDedupAux, if_pos hx, ih]
      constructor
      · rintro ⟨h1, h2⟩
        exact ⟨List.mem_cons_of_mem _ h1, h2⟩
      · rintro ⟨h1, h2⟩
        rcases List.mem_cons.mp h1 with h | h
        · exact absurd (h ▸ hx) h2
        · exact ⟨h, h2⟩
    · rw [jsSetDedupAux, if_neg hx]
      by_cases hax : a = x
      · subst hax
        simp [hx]
      · simp only [List.mem_cons, hax, false_or]
        rw [ih]
        simp [hax]

theorem mem_jsSetDedup {α : Type} [DecidableEq α] (l : List α) (a : α) :
    a ∈ jsSetDedup l ↔ a ∈ l := by
  rw [jsSetDedup, mem_jsSetDedupAux]
  simp

theorem mapProtocols_ok (ps : Resource → ParsedChatUrl) :
    ∀ rs : List Resource, (∀ r ∈ rs, parseChatProtocolUrl r.uri = some (ps r)) →
      mapProtocols rs = Except.ok (rs.map fun r => (ps r).protocol) := by
  intro rs
  induction rs with
  | nil => intro _; rfl
  | cons r rest ih =>
    intro h
    have hr := h r (by simp)
    have hrest := ih fun r' hr' => h r' (by simp [hr'])
    simp [mapProtocols, hr, hrest, Except.map]

theorem mapProtocols_error :
    ∀ (rs : List Resource) (r : Resource), r ∈ rs → parseChatProtocolUrl r.uri = none →
      ∃ r', r' ∈ rs ∧ parseChatProtocolUrl r'.uri = none ∧
        mapProtocols rs = Except.error ("Failed to parse resource URI: " ++ r'.uri) := by
  intro rs
  induction rs with
  | nil =>
    intro r h
    simp at h
  | cons a as ih =>
    intro r hr hnone
    cases hpa : parseChatProtocolUrl a.uri with
    | none => exact ⟨a, by simp, hpa, by simp [mapProtocols, hpa]⟩
    | some pa =>
      have hras : r ∈ as := by
        rcases List.mem_cons.mp hr with h | h
        · rw [h, hpa] at hnone
          cases hnone
        · exact h
      obtain ⟨r', hm, hn, he⟩ := ih r hras hnone
      refine ⟨r', by simp [hm], hn, ?_⟩
      simp [mapProtocols, hpa, he, Except.map]

theorem getProtocols_ok (ps : Resource → ParsedChatUrl) (rs : List Resource)
    (h : ∀ r ∈ rs, parseChatProtocolUrl r.uri = some (ps r)) :
    getProtocols (some rs) = Except.ok (jsSetDedup (rs.map fun r => (ps r).protocol)) := by
  simp [getProtocols, mapProtocols_ok ps rs h]

theorem parseChatList_append (p rest : List Char) (hp : p ≠ [])
    (hpc : ∀ c ∈ p, c ≠ ':') :
    parseChatList (['c', 'h', 'a', 't', '+'] ++ p ++ [':', '/', '/', '/'] ++ rest) =
      some (['c', 'h', 'a', 't', '+'] ++ p,
            rest.takeWhile fun c => ¬ isLineTerminator c) := by
  have hassoc : (['c', 'h', 'a', 't', '+'] ++ p ++ [':', '/', '/', '/'] ++ rest : List Char) =
      ['c', 'h', 'a', 't', '+'] ++ (p ++ ([':', '/', '/', '/'] ++ rest)) := by
    simp [List.append_assoc]
  rw [hassoc]
  have hco : ([':', '/', '/', '/'] : List Char) ++ rest =
      ':' :: ('/' :: '/' :: '/' :: rest) := rfl
  have h5 : ((['c', 'h', 'a', 't', '+'] : List Char) ++
      (p ++ ([':', '/', '/', '/'] ++ rest))).take 5 = ['c', 'h', 'a', 't', '+'] :=
    List.take_left ['c', 'h', 'a', 't', '+'] (p ++ ([':', '/', '/', '/'] ++ rest))
  have hdrop5 : ((['c', 'h', 'a', 't', '+'] : List Char) ++
      (p ++ ([':', '/', '/', '/'] ++ rest))).drop 5 = p ++ ([':', '/', '/', '/'] ++ rest) :=
    List.drop_left ['c', 'h', 'a', 't', '+'] (p ++ ([':', '/', '/', '/'] ++ rest))
  have hTW : (p ++ ([':', '/', '/', '/'] ++ rest)).takeWhile (fun c => c ≠ ':') = p := by
    rw [hco]
    exact takeWhile_ne_colon_append p ('/' :: '/' :: '/' :: rest) hpc
  have hDL : (p ++ ([':', '/', '/', '/'] ++ rest)).drop p.length =
      [':', '/', '/', '/'] ++ rest :=
    List.drop_left p ([':', '/', '/', '/'] ++ rest)
  rw [parseChatList]
  rw [hdrop5, hTW, hDL, if_pos h5]
  rw [if_pos ⟨hp, rfl⟩]
  rfl

theorem parseChatList_some_shape (cs proto path : List Char)
    (h : parseChatList cs = some (proto, path)) :
    ∃ p rest : List Char, p ≠ [] ∧ (∀ c ∈ p, c ≠ ':') ∧
      cs = ['c', 'h', 'a', 't', '+'] ++ p ++ [':', '/', '/', '/'] ++ rest ∧
      proto = ['c', 'h', 'a', 't', '+'] ++ p ∧
      path = rest.takeWhile (fun c => ¬ isLineTerminator c) := by
  rw [parseChatList] at h
  split at h
  case isFalse => cases h
  case isTrue h5 =>
    split at h
    case isFalse => cases h
    case isTrue hc =>
      obtain ⟨hpne, h4⟩ := hc
      rw [Option.some_inj, Prod.mk.injEq] at h
      obtain ⟨hproto, hpath⟩ := h
      refine ⟨(cs.drop 5).takeWhile (fun c => c ≠ ':'),
        ((cs.drop 5).drop ((cs.drop 5).takeWhile (fun c => c ≠ ':')).length).drop 4,
        hpne, ?_, ?_, hproto.symm, hpath.symm⟩
      · intro c hcmem
        have := List.mem_takeWhile_imp hcmem
        simpa using this
      · have e2 : (cs.drop 5).takeWhile (fun c => c ≠ ':') ++
            (cs.drop 5).drop ((cs.drop 5).takeWhile (fun c => c ≠ ':')).length =
              cs.drop 5 := by
          rw [drop_length_takeWhile]
          exact List.takeWhile_append_dropWhile _ _
        have e3 : (cs.drop 5).drop ((cs.drop 5).takeWhile (fun c => c ≠ ':')).length =
            [':', '/', '/', '/'] ++
              ((cs.drop 5).drop ((cs.drop 5).takeWhile (fun c => c ≠ ':')).length).drop 4 := by
          conv_lhs => rw [← List.take_append_drop 4
            ((cs.drop 5).drop ((cs.drop 5).takeWhile (fun c => c ≠ ':')).length)]
          rw [h4]
        have e1 : cs = ['c', 'h', 'a', 't', '+'] ++
            ((cs.drop 5).takeWhile (fun c => c ≠ ':') ++
              ([':', '/', '/', '/'] ++
                ((cs.drop 5).drop ((cs.drop 5).takeWhile (fun c => c ≠ ':')).length).drop 4)) := by
          conv_lhs => rw [← List.take_append_drop 5 cs]
          rw [h5]
          congr 1
          exact e2.symm.trans (congrArg _ e3)
        exact e1.trans (by simp [List.append_assoc])

theorem mapSet_cons_self {H : Type} (k : String) (v v' : H) (rest : List (String × H)) :
    mapSet ((k, v') :: rest) k v = (k, v) :: rest := by
  simp [mapSet]

theorem mapSet_cons_ne {H : Type} (k k' : String) (h : k' ≠ k) (v v' : H)
    (rest : List (String × H)) :
    mapSet ((k', v') :: rest) k v = (k', v') :: mapSet rest k v := by
  simp [mapSet, h]

theorem mapGet_mapSet_self {H : Type} (m : List (String × H)) (k : String) (v : H) :
    mapGet (mapSet m k v) k = some v := by
  induction m with
  | nil => simp [mapSet, mapGet]
  | cons q rest ih =>
    obtain ⟨k', v'⟩ := q
    by_cases h : k' = k
    · subst h
      simp [mapSet, mapGet]
    · simp only [mapSet, if_neg h]
      simp only [mapGet, List.find?] at ih ⊢
      simp [h, ih]

theorem mapGet_mapSet_ne {H : Type} (m : List (String × H)) (k k' : String) (v : H)
    (hne : k' ≠ k) : mapGet (mapSet m k v) k' = mapGet m k' := by
  induction m with
  | nil => simp [mapSet, mapGet, List.find?, Ne.symm hne]
  | cons q rest ih =>
    obtain ⟨a, b⟩ := q
    by_cases h : a = k
    · subst h
      simp only [mapSet, if_pos rfl]
      simp [mapGet, List.find?, Ne.symm hne]
    · simp only [mapSet, if_neg h]
      by_cases ha : a = k'
      · subst ha
        simp [mapGet, List.find?]
      · simp only [mapGet, List.find?] at ih ⊢
        simp [ha, ih]

theorem mem_mapKeys_mapSet {H : Type} (m : List (String × H)) (k a : String) (v : H) :
    a ∈ mapKeys (mapSet m k v) ↔ a ∈ mapKeys m ∨ a = k := by
  induction m with
  | nil => simp [mapSet, mapKeys]
  | cons q rest ih =>
    obtain ⟨k', v'⟩ := q
    by_cases h : k' = k
    · subst h
      rw [mapSet_cons_self]
      simp only [mapKeys, List.map_cons, List.mem_cons]
      tauto
    · rw [mapSet_cons_ne k k' h]
      simp only [mapKeys, List.map_cons, List.mem_cons] at ih ⊢
      rw [ih]
      tauto

theorem nodup_mapKeys_mapSet {H : Type} (m : List (String × H)) (k : String) (v : H)
    (hm : (mapKeys m).Nodup) : (mapKeys (mapSet m k v)).Nodup := by
  induction m with
  | nil => simp [mapSet, mapKeys]
  | cons q rest ih =>
    obtain ⟨k', v'⟩ := q
    simp only [mapKeys, List.map_cons, List.nodup_cons] at hm
    obtain ⟨hk', hrest⟩ := hm
    by_cases h : k' = k
    · subst h
      rw [mapSet_cons_self]
      simp only [mapKeys, List.map_cons, List.nodup_cons]
      exact ⟨hk', hrest⟩
    · rw [mapSet_cons_ne k k' h]
      simp only [mapKeys, List.map_cons, List.nodup_cons]
      refine ⟨?_, ih hrest⟩
      intro hcon
      rcases (mem_mapKeys_mapSet rest k k' v).mp hcon with hb | hb
      · exact hk' hb
      · exact h hb

theorem runRegistrations_live {H : Type} (regs : List (String × H)) :
    ∀ st : HostState H, (runRegistrations st regs).liveHandlers = st.liveHandlers := by
  induction regs with
  | nil => intro st; rfl
  | cons r rest ih =>
    intro st
    obtain ⟨k, h⟩ := r
    rw [runRegistrations, ih]
    rfl

theorem runRegistrations_keys_mono {H : Type} (regs : List (String × H)) :
    ∀ (st : HostState H) (k : String), k ∈ mapKeys st.requestHandlers →
      k ∈ mapKeys (runRegistrations st regs).requestHandlers := by
  induction regs with
  | nil => intro st k hk; exact hk
  | cons r rest ih =>
    intro st k hk
    obtain ⟨k', h⟩ := r
    rw [runRegistrations]
    refine ih _ k ?_
    exact (mem_mapKeys_mapSet _ _ _ _).mpr (Or.inl hk)

/-! ### Claim theorems -/

/-- Claim C7, counterexample: the claim says the parser returns a pathname
equal to everything after the triple slash for every string matching the
pattern; at the input `"chat+a:///x\ny"` (which the regex matches) the code
returns pathname `"x"`, whereas everything after the triple slash is
`"x\ny"`, so the claim as stated is false at this input. -/
theorem C7_parser_counterexample :
    parseChatProtocolUrl "chat+a:///x\ny" =
      some { protocol := "chat+a", pathname := "x" } ∧
    ("x" : String) ≠ "x\ny" := by
  constructor
  · decide
  · decide

/-- Claim C7, amended: `parseChatProtocolUrl` succeeds exactly on strings of
the form `chat+<p>:///<rest>` with `p` nonempty and colon-free, returning
`protocol = "chat+" ++ p` and `pathname` equal to the longest prefix of
`rest` containing no line terminator (all of `rest` whenever `rest` contains
no line terminator, since JavaScript `.` does not match line terminators);
on every other string it returns an absent result, and the function is a
pure total function of its argument. -/
theorem C7_parser_amended (url proto path : String) :
    parseChatProtocolUrl url = some { protocol := proto, pathname := path } ↔
      ∃ p rest : List Char, p ≠ [] ∧ (∀ c ∈ p, c ≠ ':') ∧
        url.data = ['c', 'h', 'a', 't', '+'] ++ p ++ [':', '/', '/', '/'] ++ rest ∧
        proto.data = ['c', 'h', 'a', 't', '+'] ++ p ∧
        path.data = rest.takeWhile (fun c => ¬ isLineTerminator c) := by
  constructor
  · intro h
    rw [parseChatProtocolUrl] at h
    cases hp : parseChatList url.data with
    | none =>
      rw [hp] at h
      cases h
    | some pr =>
      rw [hp] at h
      obtain ⟨a, b⟩ := pr
      simp only [Option.map_some'] at h
      rw [Option.some_inj, ParsedChatUrl.mk.injEq] at h
      obtain ⟨h1, h2⟩ := h
      obtain ⟨p, rest, hq1, hq2, hq3, hq4, hq5⟩ := parseChatList_some_shape url.data a b hp
      refine ⟨p, rest, hq1, hq2, hq3, ?_, ?_⟩
      · rw [← h1]
        exact hq4
      · rw [← h2]
        exact hq5
  · rintro ⟨p, rest, hq1, hq2, hq3, hq4, hq5⟩
    rw [parseChatProtocolUrl, hq3, parseChatList_append p rest hq1 hq2]
    simp only [Option.map_some']
    rw [Option.some_inj, ParsedChatUrl.mk.injEq]
    exact ⟨String.ext hq4.symm, String.ext hq5.symm⟩

/-- Witness for C7's amended theorem: the characterization applied at a
concrete matching URI. -/
theorem C7_parser_amended_witness :
    parseChatProtocolUrl "chat+discord:///123/456" =
      some { protocol := "chat+discord", pathname := "123/456" } := by
  refine (C7_parser_amended "chat+discord:///123/456" "chat+discord" "123/456").mpr
    ⟨['d', 'i', 's', 'c', 'o', 'r', 'd'], "123/456".data,
      by decide, by decide, by decide, by decide, by decide⟩

/-- Claim C2: whenever any resource in the list has a URI the parser
rejects, `getProtocols` fails with an error naming an offending URI,
rather than skipping that resource. -/
theorem C2_discovery_fail_fast (rs : List Resource)
    (hbad : ∃ r ∈ rs, parseChatProtocolUrl r.uri = none) :
    ∃ r', r' ∈ rs ∧ parseChatProtocolUrl r'.uri = none ∧
      getProtocols (some rs) =
        Except.error ("Failed to parse resource URI: " ++ r'.uri) := by
  obtain ⟨r, hr, hnone⟩ := hbad
  obtain ⟨r', h1, h2, h3⟩ := mapProtocols_error rs r hr hnone
  exact ⟨r', h1, h2, by simp [getProtocols, h3]⟩

/-- Witness for C2: discovery over a single malformed resource fails with
the error naming its URI. -/
theorem C2_discovery_fail_fast_witness :
    getProtocols (some [{ uri := "bad", name := "b", description := "b" }]) =
      Except.error ("Failed to parse resource URI: " ++ "bad") := by
  obtain ⟨r', h1, h2, h3⟩ := C2_discovery_fail_fast
    [{ uri := "bad", name := "b", description := "b" }]
    ⟨{ uri := "bad", name := "b", description := "b" }, by simp, by decide⟩
  have hr : r' = { uri := "bad", name := "b", description := "b" } := by simpa using h1
  rw [hr] at h3
  exact h3

/-- Claim C8: discovery over an absent or empty resource list yields an
empty protocol list; for a list whose URIs all parse, the result is the
`Set`-deduplicated image of the parse function over the resource URIs (in
particular deterministic, being a pure function of the resource list); and
as a set the result is insensitive to the order of the resources. -/
theorem C8_discovery_algebra :
    getProtocols none = Except.ok [] ∧
    getProtocols (some []) = Except.ok [] ∧
    (∀ (rs : List Resource) (ps : Resource → ParsedChatUrl),
      (∀ r ∈ rs, parseChatProtocolUrl r.uri = some (ps r)) →
      getProtocols (some rs) =
        Except.ok (jsSetDedup (rs.map fun r => (ps r).protocol))) ∧
    (∀ (rs₁ rs₂ : List Resource) (ps : Resource → ParsedChatUrl),
      rs₁.Perm rs₂ → (∀ r ∈ rs₁, parseChatProtocolUrl r.uri = some (ps r)) →
      ∃ l₁ l₂, getProtocols (some rs₁) = Except.ok l₁ ∧
        getProtocols (some rs₂) = Except.ok l₂ ∧ l₁.toFinset = l₂.toFinset) := by
  refine ⟨rfl, rfl, ?_, ?_⟩
  · intro rs ps h
    exact getProtocols_ok ps rs h
  · intro rs₁ rs₂ ps hperm h1
    have h2 : ∀ r ∈ rs₂, parseChatProtocolUrl r.uri = some (ps r) :=
      fun r hr => h1 r (hperm.mem_iff.mpr hr)
    refine ⟨_, _, getProtocols_ok ps rs₁ h1, getProtocols_ok ps rs₂ h2, ?_⟩
    ext a
    simp only [List.mem_toFinset, mem_jsSetDedup, List.mem_map]
    constructor
    · rintro ⟨r, hr, hrr⟩
      exact ⟨r, hperm.mem_iff.mp hr, hrr⟩
    · rintro ⟨r, hr, hrr⟩
      exact ⟨r, hperm.mem_iff.mpr hr, hrr⟩

/-- Witness for C8: discovery over a concrete list with a duplicated
protocol, evaluated via the deduplicated-image characterization. -/
theorem C8_discovery_algebra_witness :
    getProtocols (some [⟨"chat+a:///x", "", ""⟩, ⟨"chat+b:///y", "", ""⟩,
        ⟨"chat+a:///z", "", ""⟩]) = Except.ok ["chat+a", "chat+b"] := by
  have h := C8_discovery_algebra.2.2.1
    [⟨"chat+a:///x", "", ""⟩, ⟨"chat+b:///y", "", ""⟩, ⟨"chat+a:///z", "", ""⟩]
    (fun r => (parseChatProtocolUrl r.uri).getD { protocol := "", pathname := "" })
    (by decide)
  exact h.trans (by rfl)

/-- Claim C1 (code bug): evaluated at a concrete call of
`updateResource(uri, id)`, the emitted trace is exactly the content-updated
notification and contains no resource-updated notification — the source
constructs the async function wrapping `sendResourceUpdated` but never
invokes it, so the generic resource-updated notification is never emitted
on any call, contrary to the claim, the code's own comment and the
package's README. -/
theorem C1_resource_updated_never_emitted :
    updateResource (fun _ => some [sampleMessage]) "chat+discord:///1/2" "m1" =
      [SentNotification.custom
        { method := "notifications/resources/content_updated"
          content := some sampleMessage }] ∧
    (updateResource (fun _ => some [sampleMessage]) "chat+discord:///1/2" "m1").all
      (fun n => match n with
        | SentNotification.resourceUpdated _ => false
        | SentNotification.custom _ => true) = true := by
  constructor
  · rfl
  · rfl

/-- Claim C6: the second block of `updateResource` looks the message up by
id in the list returned by `readMessages(uri)` and emits the custom
envelope with method `notifications/resources/content_updated`, carrying
the found message as `params.content`, or `null` when no entry matches
(including when `readMessages` returns absent). -/
theorem C6_content_updated_notification
    (readMessages : String → Option (List ChatNotificationMessage))
    (uri id : String) :
    (∀ msgs m, readMessages uri = some msgs →
      msgs.find? (fun x => x.id = id) = some m →
      updateResource readMessages uri id =
        [SentNotification.custom
          { method := "notifications/resources/content_updated", content := some m }]) ∧
    (∀ msgs, readMessages uri = some msgs →
      msgs.find? (fun x => x.id = id) = none →
      updateResource readMessages uri id =
        [SentNotification.custom
          { method := "notifications/resources/content_updated", content := none }]) ∧
    (readMessages uri = none →
      updateResource readMessages uri id =
        [SentNotification.custom
          { method := "notifications/resources/content_updated", content := none }]) := by
  refine ⟨?_, ?_, ?_⟩
  · intro msgs m hread hfind
    simp [updateResource, hread, hfind]
  · intro msgs hread hfind
    simp [updateResource, hread, hfind]
  · intro hread
    simp [updateResource, hread]

/-- Witness for C6: a concrete call where the id is found, and one where it
is not. -/
theorem C6_content_updated_notification_witness :
    updateResource (fun _ => some [sampleMessage]) "chat+discord:///1/2" "m1" =
      [SentNotification.custom
        { method := "notifications/resources/content_updated"
          content := some sampleMessage }] ∧
    updateResource (fun _ => some [sampleMessage]) "chat+discord:///1/2" "zzz" =
      [SentNotification.custom
        { method := "notifications/resources/content_updated", content := none }] := by
  constructor
  · exact (C6_content_updated_notification (fun _ => some [sampleMessage])
      "chat+discord:///1/2" "m1").1 [sampleMessage] sampleMessage rfl (by decide)
  · exact (C6_content_updated_notification (fun _ => some [sampleMessage])
      "chat+discord:///1/2" "zzz").2.1 [sampleMessage] rfl (by decide)

/-- Claim C3: with discovery succeeding, a call-tool request whose name is a
discovered protocol and whose arguments have the valid shape invokes
`writeMessage(uri, message)` exactly once (the invocation trace is the
singleton `(uri, message)`) and returns its result as the single content
item; a request whose name is not a discovered protocol is delegated
entirely to the captured fallback handler, and with no fallback present
returns an empty content list (with no `writeMessage` invocation in either
delegation case). -/
theorem C3_call_tool_dispatch (resources : Option (List Resource))
    (write : String → String → Option String)
    (fb : Option (CallToolRequest → CallToolResult))
    (req : CallToolRequest) (protos : List String)
    (hget : getProtocols resources = Except.ok protos) :
    (∀ uri message, req.args = ToolArgs.valid uri message → req.name ∈ protos →
      callToolHandler resources write fb req =
        Except.ok ({ content := [{ type := "text", text := write uri message }] },
                   [(uri, message)])) ∧
    (req.name ∉ protos → ∀ h, fb = some h →
      callToolHandler resources write fb req = Except.ok (h req, [])) ∧
    (req.name ∉ protos → fb = none →
      callToolHandler resources write fb req = Except.ok ({ content := [] }, [])) := by
  refine ⟨?_, ?_, ?_⟩
  · intro uri message hargs hmem
    simp [callToolHandler, hget, hmem, hargs, sendChatMessageParse]
  · intro hmem h hfb
    simp [callToolHandler, hget, hmem, hfb]
  · intro hmem hfb
    simp [callToolHandler, hget, hmem, hfb]

/-- Witness for C3: a concrete dispatch on a discovered protocol and a
concrete delegation with no fallback. -/
theorem C3_call_tool_dispatch_witness :
    callToolHandler (some [⟨"chat+a:///x", "", ""⟩]) (fun _ m => some ("sent " ++ m))
        none { name := "chat+a", args := ToolArgs.valid "chat+a:///x" "hello" } =
      Except.ok ({ content := [{ type := "text", text := some "sent hello" }] },
                 [("chat+a:///x", "hello")]) ∧
    callToolHandler (some [⟨"chat+a:///x", "", ""⟩]) (fun _ m => some ("sent " ++ m))
        none { name := "other", args := ToolArgs.invalid } =
      Except.ok ({ content := [] }, []) := by
  constructor
  · exact (C3_call_tool_dispatch (some [⟨"chat+a:///x", "", ""⟩])
      (fun _ m => some ("sent " ++ m)) none
      { name := "chat+a", args := ToolArgs.valid "chat+a:///x" "hello" }
      ["chat+a"] (by rfl)).1 "chat+a:///x" "hello" rfl (by decide)
  · exact (C3_call_tool_dispatch (some [⟨"chat+a:///x", "", ""⟩])
      (fun _ m => some ("sent " ++ m)) none
      { name := "other", args := ToolArgs.invalid }
      ["chat+a"] (by rfl)).2.2 (by decide) rfl

/-- Claim C10: when the tool name is a discovered protocol, the arguments
pass the shape check and `writeMessage` resolves to an absent result, the
handler still returns exactly one content item of type `text` whose text
field is absent, for any fallback (no delegation) and with no error
raised. -/
theorem C10_call_tool_absent_write (resources : Option (List Resource))
    (write : String → String → Option String)
    (fb : Option (CallToolRequest → CallToolResult))
    (name uri message : String) (protos : List String)
    (hget : getProtocols resources = Except.ok protos)
    (hmem : name ∈ protos) (hwrite : write uri message = none) :
    callToolHandler resources write fb
        { name := name, args := ToolArgs.valid uri message } =
      Except.ok ({ content := [{ type := "text", text := none }] },
                 [(uri, message)]) := by
  simp [callToolHandler, hget, hmem, sendChatMessageParse, hwrite]

/-- Witness for C10: a concrete call where `writeMessage` returns an absent
result, with a fallback registered that is nevertheless not consulted. -/
theorem C10_call_tool_absent_write_witness :
    callToolHandler (some [⟨"chat+a:///x", "", ""⟩]) (fun _ _ => none)
        (some fun _ => { content := [{ type := "text", text := some "fallback" }] })
        { name := "chat+a", args := ToolArgs.valid "chat+a:///x" "hi" } =
      Except.ok ({ content := [{ type := "text", text := none }] },
                 [("chat+a:///x", "hi")]) :=
  C10_call_tool_absent_write (some [⟨"chat+a:///x", "", ""⟩]) (fun _ _ => none)
    (some fun _ => { content := [{ type := "text", text := some "fallback" }] })
    "chat+a" "chat+a:///x" "hi" ["chat+a"] (by rfl) (by decide) rfl

/-- Claim C4: with discovery succeeding, the list-tools response is the
fallback handler's tools (empty when no fallback is captured) followed by
exactly one synthesized tool per discovered protocol, in protocol order;
each synthesized tool has name equal to its protocol, a description that
contains the resource template's name, and an input schema of type object
whose two properties `uri` and `message` are both of type string and both
required. -/
theorem C4_list_tools_synthesis (resources : Option (List Resource))
    (tmpl : ResourceTemplate) (fb : Option (List Tool)) (protos : List String)
    (hget : getProtocols resources = Except.ok protos) :
    listToolsHandler resources tmpl fb =
      Except.ok (fb.getD [] ++ protos.map (synthesizeTool tmpl)) ∧
    (protos.map (synthesizeTool tmpl)).length = protos.length ∧
    (∀ p : String,
      (synthesizeTool tmpl p).name = p ∧
      (∃ a b : String, (synthesizeTool tmpl p).description = a ++ tmpl.name ++ b) ∧
      (synthesizeTool tmpl p).inputSchema.type = "object" ∧
      ((synthesizeTool tmpl p).inputSchema.properties.map fun q => (q.name, q.type)) =
        [("uri", "string"), ("message", "string")] ∧
      (synthesizeTool tmpl p).inputSchema.required = ["uri", "message"]) := by
  refine ⟨?_, by simp, ?_⟩
  · simp [listToolsHandler, hget]
  · intro p
    refine ⟨rfl, ⟨"Send a message on the ", " protocol using the resource URI", rfl⟩,
      rfl, rfl, rfl⟩

/-- Witness for C4: a concrete list-tools response with one fallback tool
and one discovered protocol. -/
theorem C4_list_tools_synthesis_witness :
    listToolsHandler (some [⟨"chat+a:///x", "", ""⟩])
        { uriTemplate := "chat+a:///([^/]+)", name := "A", description := "da" }
        (some [{ name := "orig", description := "od"
                 inputSchema := { type := "object", properties := [], required := [] } }]) =
      Except.ok
        [{ name := "orig", description := "od"
           inputSchema := { type := "object", properties := [], required := [] } },
         synthesizeTool
           { uriTemplate := "chat+a:///([^/]+)", name := "A", description := "da" }
           "chat+a"] := by
  have h := (C4_list_tools_synthesis (some [⟨"chat+a:///x", "", ""⟩])
    { uriTemplate := "chat+a:///([^/]+)", name := "A", description := "da" }
    (some [{ name := "orig", description := "od"
             inputSchema := { type := "object", properties := [], required := [] } }])
    ["chat+a"] (by rfl)).1
  exact h.trans (by rfl)

/-- Claim C5: the read-resource handler wraps a defined `readMessages`
result as the single JSON content item for the requested URI; on an absent
result it delegates entirely to the captured fallback handler, and with no
fallback present returns empty contents. -/
theorem C5_read_resource_dispatch
    (readMessages : String → Option (List ChatNotificationMessage))
    (fb : Option (String → ReadResourceResult)) (uri : String) :
    (∀ msgs, readMessages uri = some msgs →
      readResourceHandler readMessages fb uri =
        { contents := [ResourceContent.jsonMessages uri msgs] }) ∧
    (∀ h, readMessages uri = none → fb = some h →
      readResourceHandler readMessages fb uri = h uri) ∧
    (readMessages uri = none → fb = none →
      readResourceHandler readMessages fb uri = { contents := [] }) := by
  refine ⟨?_, ?_, ?_⟩
  · intro msgs hread
    simp [readResourceHandler, hread]
  · intro h hread hfb
    simp [readResourceHandler, hread, hfb]
  · intro hread hfb
    simp [readResourceHandler, hread, hfb]

/-- Witness for C5: a concrete read with one message, and a concrete absent
read with no fallback. -/
theorem C5_read_resource_dispatch_witness :
    readResourceHandler (fun _ => some [sampleMessage]) none "chat+discord:///1/2" =
      { contents := [ResourceContent.jsonMessages "chat+discord:///1/2" [sampleMessage]] } ∧
    readResourceHandler (fun _ => none) none "chat+discord:///1/2" =
      { contents := [] } := by
  constructor
  · exact (C5_read_resource_dispatch (fun _ => some [sampleMessage]) none
      "chat+discord:///1/2").1 [sampleMessage] rfl
  · exact (C5_read_resource_dispatch (fun _ => none) none
      "chat+discord:///1/2").2.2 rfl rfl

/-- Claim C9: after attachment, a registration through the host's
registration entry point writes only to the chat layer's handler registry
(the live transport's handler table is untouched, also across any sequence
of registrations); the new handler is retained under its request-kind key,
replacing any earlier handler for that key; entries under other keys are
unchanged and keys are never removed; and the registry keeps at most one
entry per key (key lists stay duplicate-free). -/
theorem C9_handler_registry (H : Type) (st : HostState H) (k : String) (h : H) :
    (setRequestHandlerAfterAttach st k h).liveHandlers = st.liveHandlers ∧
    mapGet (setRequestHandlerAfterAttach st k h).requestHandlers k = some h ∧
    (∀ k', k' ≠ k →
      mapGet (setRequestHandlerAfterAttach st k h).requestHandlers k' =
        mapGet st.requestHandlers k') ∧
    (∀ k', k' ∈ mapKeys st.requestHandlers →
      k' ∈ mapKeys (setRequestHandlerAfterAttach st k h).requestHandlers) ∧
    ((mapKeys st.requestHandlers).Nodup →
      (mapKeys (setRequestHandlerAfterAttach st k h).requestHandlers).Nodup) ∧
    (∀ regs : List (String × H),
      (runRegistrations st regs).liveHandlers = st.liveHandlers) ∧
    (∀ (regs : List (String × H)) (k' : String),
      k' ∈ mapKeys st.requestHandlers →
      k' ∈ mapKeys (runRegistrations st regs).requestHandlers) := by
  refine ⟨rfl, ?_, ?_, ?_, ?_, ?_, ?_⟩
  · exact mapGet_mapSet_self st.requestHandlers k h
  · intro k' hk'
    exact mapGet_mapSet_ne st.requestHandlers k k' h hk'
  · intro k' hk'
    exact (mem_mapKeys_mapSet st.requestHandlers k k' h).mpr (Or.inl hk')
  · exact nodup_mapKeys_mapSet st.requestHandlers k h
  · exact fun regs => runRegistrations_live regs st
  · exact fun regs k' hk' => runRegistrations_keys_mono regs st k' hk'

/-- Witness for C9: a concrete registry state with one live handler and one
captured handler, re-registering the captured key. -/
theorem C9_handler_registry_witness :
    (setRequestHandlerAfterAttach
      ({ liveHandlers := [("live", 0)], requestHandlers := [("CallTool", 1)] } :
        HostState Nat) "CallTool" 2).liveHandlers = [("live", 0)] ∧
    mapGet (setRequestHandlerAfterAttach
      ({ liveHandlers := [("live", 0)], requestHandlers := [("CallTool", 1)] } :
        HostState Nat) "CallTool" 2).requestHandlers "CallTool" = some 2 ∧
    mapGet (setRequestHandlerAfterAttach
      ({ liveHandlers := [("live", 0)], requestHandlers := [("CallTool", 1)] } :
        HostState Nat) "CallTool" 2).requestHandlers "ListTools" =
      mapGet [("CallTool", 1)] "ListTools" ∧
    (mapKeys (setRequestHandlerAfterAttach
      ({ liveHandlers := [("live", 0)], requestHandlers := [("CallTool", 1)] } :
        HostState Nat) "CallTool" 2).requestHandlers).Nodup := by
  have h := C9_handler_registry Nat
    { liveHandlers := [("live", 0)], requestHandlers := [("CallTool", 1)] } "CallTool" 2
  exact ⟨h.1, h.2.1, h.2.2.1 "ListTools" (by decide), h.2.2.2.2.1 (by decide)⟩

end McpChat
